import Mathlib

/-!
Verification of the `rustdsc` dyld-shared-cache extractor (`src/extract.rs`),
as a shallow embedding over byte lists.  Rust strings and byte slices are
modelled as `List Nat` (each element a byte value), machine integers as `Nat`
with explicit reduction mod `2^32` / `2^64` where the source wraps or
truncates, and fallible Rust code as a three-valued result (ok / error /
panic, the last covering out-of-range slicing and `unwrap()`).
-/

namespace Rustdsc

/-- Byte strings: Rust `&[u8]` / `&str` / `String` as a list of byte values. -/
abbrev ByteStr := List Nat

/-- Wrapping 32-bit addition (`u32` `+` in release mode). -/
def wadd32 (a b : Nat) : Nat := (a + b) % 2 ^ 32

/-- Wrapping 32-bit subtraction (`u32` `-` in release mode). -/
def wsub32 (a b : Nat) : Nat := (a + 2 ^ 32 - b % 2 ^ 32) % 2 ^ 32

/-- Wrapping 32-bit multiplication (`u32` `*` in release mode). -/
def wmul32 (a b : Nat) : Nat := a * b % 2 ^ 32

/-- Wrapping 64-bit addition (`u64` `+` in release mode). -/
def wadd64 (a b : Nat) : Nat := (a + b) % 2 ^ 64

/-- Wrapping 64-bit subtraction (`u64` `-` in release mode). -/
def wsub64 (a b : Nat) : Nat := (a + 2 ^ 64 - b % 2 ^ 64) % 2 ^ 64

/-- Little-endian `u32` read at byte offset `off` (out-of-range bytes read 0;
all reads in the pipeline are length-guarded first, as `pod::from_bytes` is). -/
def readU32 (buf : ByteStr) (off : Nat) : Nat :=
  buf.getD off 0 + 2 ^ 8 * buf.getD (off + 1) 0 + 2 ^ 16 * buf.getD (off + 2) 0 +
    2 ^ 24 * buf.getD (off + 3) 0

/-- Little-endian `u64` read at byte offset `off`. -/
def readU64 (buf : ByteStr) (off : Nat) : Nat :=
  readU32 buf off + 2 ^ 32 * readU32 buf (off + 4)

/-- Little-endian byte encoding of a `u32`, for building concrete images. -/
def u32le (n : Nat) : ByteStr :=
  [n % 2 ^ 8, n / 2 ^ 8 % 2 ^ 8, n / 2 ^ 16 % 2 ^ 8, n / 2 ^ 24 % 2 ^ 8]

/-- Little-endian byte encoding of a `u64`. -/
def u64le (n : Nat) : ByteStr := u32le (n % 2 ^ 32) ++ u32le (n / 2 ^ 32 % 2 ^ 32)

/-- `mach_header_64` constants and the load command tags recognised by
`cmd_extract` (`object::macho`). -/
def MH_MAGIC_64 : Nat := 0xFEEDFACF

def MH_DYLIB_IN_CACHE : Nat := 0x80000000

def LC_SEGMENT_64 : Nat := 0x19

def LC_SYMTAB : Nat := 0x2

def LC_DYSYMTAB : Nat := 0xb

def LC_DYLD_INFO : Nat := 0x22

def LC_DYLD_INFO_ONLY : Nat := 0x80000022

def LC_FUNCTION_STARTS : Nat := 0x26

def LC_DATA_IN_CODE : Nat := 0x29

def LC_CODE_SIGNATURE : Nat := 0x1d

def LC_DYLD_EXPORTS_TRIE : Nat := 0x80000033

def LC_DYLD_CHAINED_FIXUPS : Nat := 0x80000034

/-- `PAGE_SIZE` from extract.rs line 13. -/
def PAGE_SIZE : Nat := 0x4000

/-- `align_to` from extract.rs lines 15-17:
`(offset + alignment - 1) & !(alignment - 1)` in `u64` arithmetic.  For the
power-of-two alignment used throughout (`PAGE_SIZE = 0x4000`) the mask clears
the low bits of the wrapped sum, i.e. rounds it down to a multiple of
`alignment`; that rounding is expressed arithmetically here. -/
def align_to (offset alignment : Nat) : Nat :=
  let s := (offset + (alignment - 1)) % 2 ^ 64
  s - s % alignment

/-- Bytes of the string literal `"__LINKEDIT"`. -/
def linkeditName : ByteStr := [0x5F, 0x5F, 0x4C, 0x49, 0x4E, 0x4B, 0x45, 0x44, 0x49, 0x54]

/-- Bytes of the string literal `"__TEXT"`. -/
def textName : ByteStr := [0x5F, 0x5F, 0x54, 0x45, 0x58, 0x54]

/-- Is `b` a UTF-8 continuation byte (`0x80..=0xBF`)? -/
def isCont (b : Nat) : Bool := 0x80 ≤ b && b ≤ 0xBF

/-- UTF-8 validity of a byte sequence, mirroring `std::str::from_utf8`
(RFC 3629: no overlong forms, no surrogates, no code points above U+10FFFF). -/
def utf8Valid : List Nat → Bool
  | [] => true
  | b :: r =>
    if b ≤ 0x7F then utf8Valid r
    else if b ≤ 0xC1 then false
    else if b ≤ 0xDF then
      match r with
      | c :: r2 => isCont c && utf8Valid r2
      | [] => false
    else if b ≤ 0xEF then
      match r with
      | c :: d :: r2 =>
        (if b = 0xE0 then decide (0xA0 ≤ c ∧ c ≤ 0xBF)
         else if b = 0xED then decide (0x80 ≤ c ∧ c ≤ 0x9F)
         else isCont c) && isCont d && utf8Valid r2
      | _ => false
    else if b ≤ 0xF4 then
      match r with
      | c :: d :: e :: r2 =>
        (if b = 0xF0 then decide (0x90 ≤ c ∧ c ≤ 0xBF)
         else if b = 0xF4 then decide (0x80 ≤ c ∧ c ≤ 0x8F)
         else isCont c) && isCont d && isCont e && utf8Valid r2
      | _ => false
    else false

/-- `seg_name` from extract.rs lines 30-33: decode a 16-byte raw segment name
by taking the bytes before the first NUL (`position(|&b| b == 0).unwrap_or(16)`)
and validating them as UTF-8 (`from_utf8(..).unwrap_or("")`).  A Rust `&str`
is its bytes, so the result is a byte string. -/
def seg_name (raw : ByteStr) : ByteStr :=
  let e := (List.findIdx? (fun b => b == 0) raw).getD 16
  let bs := raw.take e
  if utf8Valid bs then bs else []

/-- `SegmentInfo` from extract.rs lines 20-28. -/
structure SegmentInfo where
  name : ByteStr
  vmaddr : Nat
  vmsize : Nat
  old_fileoff : Nat
  old_filesize : Nat
  cmd_offset : Nat
deriving DecidableEq

/-- One linkedit-bearing `(offset field, size field)` pair of a load command.
`mult` is the element-size multiplier applied when the pair is recorded as a
bound (`nsyms * 16`, `ntoc * 8`, ... in extract.rs lines 109-185); it is 1 when
the size field is already a byte size. -/
structure LPair where
  off : Nat
  sizeField : Nat
  mult : Nat
deriving DecidableEq

/-- The byte size passed to `push_bound` for a pair (u32 multiply). -/
def byteSizeOf (p : LPair) : Nat := wmul32 p.sizeField p.mult

/-- `push_bound` from extract.rs lines 36-40: record `(off, off + byte_size)`
only when both `off` and `byte_size` are non-zero (`Vec::push` appends). -/
def pushBound (bounds : List (Nat × Nat)) (off byte_size : Nat) : List (Nat × Nat) :=
  if off ≠ 0 ∧ byte_size ≠ 0 then bounds ++ [(off, wadd32 off byte_size)] else bounds

/-- Fold `push_bound` over the linkedit pairs of one or more commands, in
command order — exactly the pushes performed during the phase-2 walk. -/
def boundsOfPairs (pairs : List LPair) : List (Nat × Nat) :=
  pairs.foldl (fun b p => pushBound b p.off (byteSizeOf p)) []

/-- The `patch_linkedit!` rule from extract.rs lines 44-53: rebase the offset
field when both it and its size field are non-zero, zero a stale non-zero
offset whose size field is zero, and leave a zero offset unchanged.  All
arithmetic is wrapping `u32`. -/
def patch_linkedit (off sizeField new_base min_off : Nat) : Nat :=
  if off ≠ 0 ∧ sizeField ≠ 0 then wadd32 new_base (wsub32 off min_off)
  else if off ≠ 0 then 0
  else off

/-- `mach_header_64`: eight little-endian `u32` fields, 32 bytes. -/
structure MachHeader64 where
  magic : Nat
  cputype : Nat
  cpusubtype : Nat
  filetype : Nat
  ncmds : Nat
  sizeofcmds : Nat
  flags : Nat
  reserved : Nat
deriving DecidableEq

/-- `pod::from_bytes::<MachHeader64<LE>>`: succeeds exactly when at least
`size_of::<MachHeader64>() = 32` bytes are available (the byte-wrapped endian
fields have alignment 1, so only the length is checked — in particular the
magic is not examined). -/
def parseMachHeader64 (bytes : ByteStr) : Option MachHeader64 :=
  if 32 ≤ bytes.length then
    some ⟨readU32 bytes 0, readU32 bytes 4, readU32 bytes 8, readU32 bytes 12,
      readU32 bytes 16, readU32 bytes 20, readU32 bytes 24, readU32 bytes 28⟩
  else none

/-- Extraction errors surfaced by `cmd_extract` (the `Err` strings of
extract.rs, structurally). -/
inductive ExtractErr where
  | imageNotFound
  | headerParse
  | loadCmdParse
  | noLinkedit
  | linkeditUnresolved
  | headerPatch
deriving DecidableEq

/-- Three-valued Rust outcome: `Ok`, `Err`, or a panic (out-of-range slice
index, arithmetic underflow on `usize`, or a failed `unwrap()`). -/
inductive RResult (α : Type) where
  | ok (a : α)
  | err (e : ExtractErr)
  | panicked
deriving DecidableEq

def RResult.bind {α β : Type} : RResult α → (α → RResult β) → RResult β
  | .ok a, f => f a
  | .err e, _ => .err e
  | .panicked, _ => .panicked

def RResult.isOk {α : Type} : RResult α → Bool
  | .ok _ => true
  | _ => false

def RResult.getOk {α : Type} : RResult α → α → α
  | .ok a, _ => a
  | _, d => d

/-- Read a `SegmentCommand64` at `pos` into a `SegmentInfo` (field offsets:
segname 8, vmaddr 24, vmsize 32, fileoff 40, filesize 48). -/
def readSegment (buf : ByteStr) (pos : Nat) : SegmentInfo :=
  { name := (buf.drop (pos + 8)).take 16
    vmaddr := readU64 buf (pos + 24)
    vmsize := readU64 buf (pos + 32)
    old_fileoff := readU64 buf (pos + 40)
    old_filesize := readU64 buf (pos + 48)
    cmd_offset := pos }

/-- The two `LC_SYMTAB` pairs: `(symoff, nsyms · 16)`, `(stroff, strsize)`
(`SymtabCommand` field offsets 8/12 and 16/20). -/
def symtabPairs (buf : ByteStr) (pos : Nat) : List LPair :=
  [⟨readU32 buf (pos + 8), readU32 buf (pos + 12), 16⟩,
   ⟨readU32 buf (pos + 16), readU32 buf (pos + 20), 1⟩]

/-- The six `LC_DYSYMTAB` pairs: toc·8, modtab·56, extrefsyms·4,
indirectsyms·4, extrel·8, locrel·8 (`DysymtabCommand` offsets 32..76). -/
def dysymtabPairs (buf : ByteStr) (pos : Nat) : List LPair :=
  [⟨readU32 buf (pos + 32), readU32 buf (pos + 36), 8⟩,
   ⟨readU32 buf (pos + 40), readU32 buf (pos + 44), 56⟩,
   ⟨readU32 buf (pos + 48), readU32 buf (pos + 52), 4⟩,
   ⟨readU32 buf (pos + 56), readU32 buf (pos + 60), 4⟩,
   ⟨readU32 buf (pos + 64), readU32 buf (pos + 68), 8⟩,
   ⟨readU32 buf (pos + 72), readU32 buf (pos + 76), 8⟩]

/-- The five `LC_DYLD_INFO(_ONLY)` pairs: rebase, bind, weak_bind, lazy_bind,
export (`DyldInfoCommand` offsets 8..44, all byte sizes). -/
def dyldInfoPairs (buf : ByteStr) (pos : Nat) : List LPair :=
  [⟨readU32 buf (pos + 8), readU32 buf (pos + 12), 1⟩,
   ⟨readU32 buf (pos + 16), readU32 buf (pos + 20), 1⟩,
   ⟨readU32 buf (pos + 24), readU32 buf (pos + 28), 1⟩,
   ⟨readU32 buf (pos + 32), readU32 buf (pos + 36), 1⟩,
   ⟨readU32 buf (pos + 40), readU32 buf (pos + 44), 1⟩]

/-- The single `LinkeditDataCommand` pair: `(dataoff, datasize)` (offsets 8/12). -/
def linkeditDataPairs (buf : ByteStr) (pos : Nat) : List LPair :=
  [⟨readU32 buf (pos + 8), readU32 buf (pos + 12), 1⟩]

/-- Accumulator of the phase-2 walk: segments, recorded linkedit bounds, and
the linkedit field pairs in command order (the phase-5c walk re-reads exactly
these pairs from the buffer; phases 5a/5b write only the header flags and the
segment commands / section records, so the re-read values equal the phase-2
reads modelled here). -/
structure CollectAcc where
  segments : List SegmentInfo
  bounds : List (Nat × Nat)
  pairs : List LPair
deriving DecidableEq

/-- Record one command's linkedit pairs: push each pair's bound, append the
pairs. -/
def pushPairs (acc : CollectAcc) (ps : List LPair) : CollectAcc :=
  { acc with
    bounds := ps.foldl (fun b p => pushBound b p.off (byteSizeOf p)) acc.bounds
    pairs := acc.pairs ++ ps }

/-- Phase 2 of `cmd_extract` (extract.rs lines 85-191): walk `ncmds` load
commands from `pos`, collecting segments, bounds and pairs.  Slicing
`&buf[pos..]` with `pos > len` panics; fewer than 8 remaining bytes fail the
`LoadCommand` parse; a too-short recognised command fails its `unwrap()`. -/
def collectWalk (buf : ByteStr) : Nat → Nat → CollectAcc → RResult CollectAcc
  | 0, _, acc => .ok acc
  | n + 1, pos, acc =>
    if buf.length < pos then .panicked
    else if buf.length - pos < 8 then .err .loadCmdParse
    else
      let cmd := readU32 buf pos
      let cmdsize := readU32 buf (pos + 4)
      if cmd = LC_SEGMENT_64 then
        if buf.length - pos < 72 then .panicked
        else collectWalk buf n (pos + cmdsize)
          { acc with segments := acc.segments ++ [readSegment buf pos] }
      else if cmd = LC_SYMTAB then
        if buf.length - pos < 24 then .panicked
        else collectWalk buf n (pos + cmdsize) (pushPairs acc (symtabPairs buf pos))
      else if cmd = LC_DYSYMTAB then
        if buf.length - pos < 80 then .panicked
        else collectWalk buf n (pos + cmdsize) (pushPairs acc (dysymtabPairs buf pos))
      else if cmd = LC_DYLD_INFO ∨ cmd = LC_DYLD_INFO_ONLY then
        if buf.length - pos < 48 then .panicked
        else collectWalk buf n (pos + cmdsize) (pushPairs acc (dyldInfoPairs buf pos))
      else if cmd = LC_FUNCTION_STARTS ∨ cmd = LC_DATA_IN_CODE ∨ cmd = LC_CODE_SIGNATURE ∨
          cmd = LC_DYLD_EXPORTS_TRIE ∨ cmd = LC_DYLD_CHAINED_FIXUPS then
        if buf.length - pos < 16 then .panicked
        else collectWalk buf n (pos + cmdsize) (pushPairs acc (linkeditDataPairs buf pos))
      else collectWalk buf n (pos + cmdsize) acc

/-- Phase 3 of `cmd_extract` (extract.rs lines 201-210): the extracted
linkedit range.  With no recorded bounds, fall back to the `__LINKEDIT`
segment's file range truncated `as u32`; otherwise take the minimum offset
and maximum end over the recorded bounds. -/
def linkeditRange (bounds : List (Nat × Nat)) (old_fileoff old_filesize : Nat) : Nat × Nat :=
  match bounds with
  | [] => (old_fileoff % 2 ^ 32, (old_fileoff + old_filesize) % 2 ^ 64 % 2 ^ 32)
  | b :: bs => ((bs.map Prod.fst).foldl Nat.min b.1, (bs.map Prod.snd).foldl Nat.max b.2)

/-- `NewSegLayout` from extract.rs lines 214-220. -/
structure NewSegLayout where
  seg_index : Nat
  new_fileoff : Nat
  new_filesize : Nat
  new_vmaddr : Nat
  new_vmsize : Nat
deriving DecidableEq

/-- The non-linkedit part of phase 4 (extract.rs lines 222-252), over the
enumerated segments: `__LINKEDIT` is skipped, `__TEXT` is placed at file
offset 0 and resets the cursor to its filesize, every other segment is placed
at the page-aligned cursor.  Returns the layouts and the final cursor. -/
def buildLayouts : List (Nat × SegmentInfo) → Nat → List NewSegLayout × Nat
  | [], cursor => ([], cursor)
  | (i, seg) :: rest, cursor =>
    let name := seg_name seg.name
    if name = linkeditName then buildLayouts rest cursor
    else if name = textName then
      let r := buildLayouts rest seg.old_filesize
      (⟨i, 0, seg.old_filesize, seg.vmaddr, seg.vmsize⟩ :: r.1, r.2)
    else
      let aligned := align_to cursor PAGE_SIZE
      let r := buildLayouts rest (wadd64 aligned seg.old_filesize)
      (⟨i, aligned, seg.old_filesize, seg.vmaddr, seg.vmsize⟩ :: r.1, r.2)

/-- Phase 4 of `cmd_extract` (extract.rs lines 222-267): lay out the
non-linkedit segments, then append `__LINKEDIT` last at the page-aligned
cursor, with `vmaddr` shifted by `min_off - old_fileoff` (wrapping u64) and
`filesize = vmsize = linkedit_extract_size`.  `position(..).unwrap()` panics
(returns `none` here) when no segment is named `__LINKEDIT`.  Returns the
layouts and `linkedit_new_fileoff`. -/
def planLayout (segments : List SegmentInfo) (linkedit_seg : SegmentInfo)
    (min_off extract : Nat) : Option (List NewSegLayout × Nat) :=
  let r := buildLayouts segments.enum 0
  match List.findIdx? (fun s => seg_name s.name == linkeditName) segments with
  | none => none
  | some idx =>
    let linkedit_new_fileoff := align_to r.2 PAGE_SIZE
    let linkedit_new_vmaddr :=
      wadd64 linkedit_seg.vmaddr (wsub64 min_off linkedit_seg.old_fileoff)
    some (r.1 ++ [⟨idx, linkedit_new_fileoff, extract, linkedit_new_vmaddr, extract⟩],
      linkedit_new_fileoff)

/-- Phase 5a of `cmd_extract` (extract.rs lines 273-279): clear
`MH_DYLIB_IN_CACHE` from the header flags.  `!0x8000_0000u32 = 0x7FFF_FFFF`. -/
def patchFlags (flags : Nat) : Nat := Nat.land flags (2 ^ 32 - 1 - MH_DYLIB_IN_CACHE)

/-- The values phase 5b writes into (or leaves in) one segment command. -/
structure SegPatch where
  name : ByteStr
  oldVmaddr : Nat
  oldVmsize : Nat
  oldFileoff : Nat
  oldFilesize : Nat
  newFileoff : Nat
  newFilesize : Nat
  newVmaddr : Nat
  newVmsize : Nat
deriving DecidableEq

/-- Phase 5b for one layout (extract.rs lines 287-298): `fileoff`/`filesize`
are always rewritten; `vmaddr`/`vmsize` are rewritten only for `__LINKEDIT`
(every other segment command keeps its original values). -/
def mkSegPatch (l : NewSegLayout) (seg : SegmentInfo) : SegPatch :=
  let name := seg_name seg.name
  { name := name
    oldVmaddr := seg.vmaddr, oldVmsize := seg.vmsize
    oldFileoff := seg.old_fileoff, oldFilesize := seg.old_filesize
    newFileoff := l.new_fileoff, newFilesize := l.new_filesize
    newVmaddr := if name = linkeditName then l.new_vmaddr else seg.vmaddr
    newVmsize := if name = linkeditName then l.new_vmsize else seg.vmsize }

/-- Phase 5b over all layouts (extract.rs lines 282-299); `segments[i]` with
an out-of-range index panics. -/
def patchSegs (segments : List SegmentInfo) : List NewSegLayout → RResult (List SegPatch)
  | [] => .ok []
  | l :: rest =>
    match segments.get? l.seg_index with
    | none => .panicked
    | some seg => (patchSegs segments rest).bind fun ps => .ok (mkSegPatch l seg :: ps)

/-- The values phase 5c writes for one linkedit pair. -/
structure PairPatch where
  off : Nat
  sizeField : Nat
  mult : Nat
  byteSize : Nat
  newOff : Nat
deriving DecidableEq

/-- Phase 5c of `cmd_extract` (extract.rs lines 328-384): apply
`patch_linkedit!` to every linkedit pair, with `new_base` the truncated
`linkedit_new_fileoff as u32`. -/
def patchAllPairs (pairs : List LPair) (new_base min_off : Nat) : List PairPatch :=
  pairs.map fun p =>
    { off := p.off, sizeField := p.sizeField, mult := p.mult
      byteSize := byteSizeOf p
      newOff := patch_linkedit p.off p.sizeField new_base min_off }

/-- One image entry of the parsed cache (collaborator data).  `data` is the
backing byte slice returned by `image_data_and_offset`, `offset` the image
header's offset inside it. -/
structure CacheImage where
  path : ByteStr
  data : ByteStr
  offset : Nat
deriving DecidableEq

/-- One virtual-memory mapping of the cache: `dataLen` is the length of the
backing slice it resolves into. -/
structure Mapping where
  address : Nat
  size : Nat
  fileOffset : Nat
  dataLen : Nat
deriving DecidableEq

/-- The parsed dyld cache (collaborator data): its images and mappings. -/
structure Cache where
  images : List CacheImage
  mappings : List Mapping
deriving DecidableEq

/-- Modelled from the spec: the collaborator
`CacheView.data_and_offset_for_address` (`object::read::macho::DyldCache`, not
part of src) resolves a virtual address to a backing slice and the offset of
that address inside it, or `none` when no mapping covers the address.  Only
the backing slice's length is needed downstream, so the pair returned is
`(slice length, offset)`. -/
def data_and_offset_for_address (c : Cache) (addr : Nat) : Option (Nat × Nat) :=
  (c.mappings.find? fun m => decide (m.address ≤ addr) && decide (addr < m.address + m.size)).map
    fun m => (m.dataLen, m.fileOffset + (addr - m.address))

/-- Phase 6 for one layout (extract.rs lines 389-446): bounds-check the copy
of the segment payload (or linkedit slice) into the output buffer.  A short
source emits a truncation warning and copies what is available; an unresolved
non-linkedit address warns and continues; an unresolved linkedit address is
fatal.  Out-of-range slice arithmetic panics. -/
def assembleSeg (cache : Cache) (total_size linkedit_vmaddr_for_min linkedit_extract_size : Nat)
    (segments : List SegmentInfo) (l : NewSegLayout) : RResult Unit :=
  match segments.get? l.seg_index with
  | none => .panicked
  | some seg =>
    if seg_name seg.name = linkeditName then
      match data_and_offset_for_address cache linkedit_vmaddr_for_min with
      | some (len, off) =>
        if off + linkedit_extract_size ≤ len then
          if l.new_fileoff + linkedit_extract_size ≤ total_size then .ok () else .panicked
        else if len < off then .panicked
        else if l.new_fileoff + (len - off) ≤ total_size then .ok () else .panicked
      | none => .err .linkeditUnresolved
    else
      if l.new_filesize = 0 then .ok ()
      else
        match data_and_offset_for_address cache seg.vmaddr with
        | some (len, off) =>
          if off + l.new_filesize ≤ len then
            if l.new_fileoff + l.new_filesize ≤ total_size then .ok () else .panicked
          else if len < off then .panicked
          else if l.new_fileoff + (len - off) ≤ total_size then .ok () else .panicked
        | none => .ok ()

/-- Phase 6 over all layouts, in order. -/
def assembleAll (cache : Cache) (total_size linkedit_vmaddr_for_min linkedit_extract_size : Nat)
    (segments : List SegmentInfo) : List NewSegLayout → RResult Unit
  | [] => .ok ()
  | l :: rest =>
    (assembleSeg cache total_size linkedit_vmaddr_for_min linkedit_extract_size segments l).bind
      fun _ => assembleAll cache total_size linkedit_vmaddr_for_min linkedit_extract_size
        segments rest

/-- Modelled from the spec / `std::path::Path`: `Path::file_name` (the
collaborator used at extract.rs lines 455-457) — the last normal path
component, with empty and `.` components dropped, `none` for a path ending in
`..` or with no components.  `0x2F` is `/`, `0x2E` is `.`. -/
def fileName (path : ByteStr) : Option ByteStr :=
  let comps := (List.splitOn 0x2F path).filter fun c => c ≠ [] ∧ c ≠ [0x2E]
  match comps.getLast? with
  | none => none
  | some l => if l = [0x2E, 0x2E] then none else some l

/-- Bytes of an ASCII string literal. -/
def asciiOf (s : String) : ByteStr := s.data.map Char.toNat

/-- Decimal digits of a number, as ASCII bytes (Rust `{}` formatting of an
unsigned integer). -/
def natDecimal (n : Nat) : ByteStr := (Nat.toDigits 10 n).map Char.toNat

/-- The output path choice from extract.rs lines 452-461: the given path, or
the basename of the dylib path, or `"extracted.dylib"` when there is none. -/
def outputPathOf (output : Option ByteStr) (dylib_path : ByteStr) : ByteStr :=
  match output with
  | some p => p
  | none => (fileName dylib_path).getD (asciiOf ("extracted.dylib"))

/-- The stderr diagnostic from extract.rs lines 466-469:
`Extracted {dylib} -> {out} ({n} bytes)`. -/
def extractedLine (dylib out : ByteStr) (n : Nat) : ByteStr :=
  asciiOf ("Extracted ") ++ dylib ++ asciiOf (" -> ") ++ out ++ asciiOf (" (") ++
    natDecimal n ++ asciiOf (" bytes)")

/-- Everything `cmd_extract` computes on the success path: the written file's
name and size, the diagnostic line, and the values patched into the output
header, segment commands and linkedit commands. -/
structure ExtractResult where
  totalSize : Nat
  outputLen : Nat
  outputPath : ByteStr
  diag : ByteStr
  oldFlags : Nat
  newFlags : Nat
  segments : List SegmentInfo
  layouts : List NewSegLayout
  segPatches : List SegPatch
  pairPatches : List PairPatch
  minOff : Nat
  maxEnd : Nat
  linkeditNewFileoff : Nat
  linkeditExtractSize : Nat
deriving DecidableEq

/-- `cmd_extract` from extract.rs lines 55-472, phase by phase: find the
image, parse its header, copy header + load commands, walk the commands,
locate `__LINKEDIT`, compute the extract range and the new layout, patch
flags / segment commands / linkedit pairs, assemble (bounds-checked copies),
overlay the patched buffer, and report.  The actual `File::create` /
`write_all` happen after every fallible step modelled here. -/
def cmdExtract (cache : Cache) (dylib_path : ByteStr) (output : Option ByteStr) :
    RResult ExtractResult :=
  match cache.images.find? fun img => img.path == dylib_path with
  | none => .err .imageNotFound
  | some image =>
    if image.data.length < image.offset then .panicked
    else
      let header_bytes := image.data.drop image.offset
      match parseMachHeader64 header_bytes with
      | none => .err .headerParse
      | some header =>
        if header_bytes.length < 32 + header.sizeofcmds then .panicked
        else
          let buf := header_bytes.take (32 + header.sizeofcmds)
          (collectWalk buf header.ncmds 32 ⟨[], [], []⟩).bind fun acc =>
          match acc.segments.find? fun s => seg_name s.name == linkeditName with
          | none => .err .noLinkedit
          | some linkedit_seg =>
            let rng := linkeditRange acc.bounds linkedit_seg.old_fileoff linkedit_seg.old_filesize
            let min_off := rng.1
            let max_end := rng.2
            let linkedit_extract_size := wsub32 max_end min_off
            match planLayout acc.segments linkedit_seg min_off linkedit_extract_size with
            | none => .panicked
            | some (layouts, linkedit_new_fileoff) =>
              let total_size := wadd64 linkedit_new_fileoff linkedit_extract_size
              match parseMachHeader64 buf with
              | none => .err .headerPatch
              | some h2 =>
                (patchSegs acc.segments layouts).bind fun segPatches =>
                let pairPatches := patchAllPairs acc.pairs (linkedit_new_fileoff % 2 ^ 32) min_off
                let linkedit_vmaddr_for_min :=
                  wadd64 linkedit_seg.vmaddr (wsub64 min_off linkedit_seg.old_fileoff)
                (assembleAll cache total_size linkedit_vmaddr_for_min linkedit_extract_size
                    acc.segments layouts).bind fun _ =>
                if total_size < buf.length then .panicked
                else
                  let output_path := outputPathOf output dylib_path
                  .ok { totalSize := total_size
                        outputLen := total_size
                        outputPath := output_path
                        diag := extractedLine dylib_path output_path total_size
                        oldFlags := h2.flags
                        newFlags := patchFlags h2.flags
                        segments := acc.segments
                        layouts := layouts
                        segPatches := segPatches
                        pairPatches := pairPatches
                        minOff := min_off
                        maxEnd := max_end
                        linkeditNewFileoff := linkedit_new_fileoff
                        linkeditExtractSize := linkedit_extract_size }

/-- A file write performed by `cmd_extract`. -/
structure FSWrite where
  path : ByteStr
  size : Nat
deriving DecidableEq

/-- The file-system effect of one `cmd_extract` call: `File::create` /
`write_all` run only after every fallible step has succeeded, so an error or
panic leaves the file system unchanged. -/
def extractEffects (cache : Cache) (dylib_path : ByteStr) (output : Option ByteStr) :
    List FSWrite :=
  match cmdExtract cache dylib_path output with
  | .ok r => [⟨r.outputPath, r.outputLen⟩]
  | _ => []

/-- Modelled from the spec (§6.2): the CLI surface.  The crate's real `main`
(the `clap` dispatch including the `Extract` subcommand) is not among the
files in src — the `main.rs` present there is a stale snapshot that declares
a `utils` module absent from src and none of the `cache` / `extract` /
`inspect` modules, and `cmd_extract` is `pub` with no caller in src — so the
dispatch is modelled from the spec's command table. -/
inductive CLICommand where
  | images (cachePath : ByteStr)
  | sections (cachePath : ByteStr) (module? : Option ByteStr)
  | symbols (cachePath : ByteStr) (module? : Option ByteStr)
  | dump (cachePath : ByteStr) (addr : Nat) (size : Nat)
  | extract (cachePath : ByteStr) (dylibPath : ByteStr) (outputPath : Option ByteStr)
deriving DecidableEq

/-- Modelled from the spec (§6.2): dispatching an `extract` invocation calls
the core `cmd_extract` with the parsed cache, the dylib path and the optional
output path; other subcommands do not reach the extractor. -/
def runExtract (cmd : CLICommand) (cache : Cache) : Option (RResult ExtractResult) :=
  match cmd with
  | .extract _ dylibPath outputPath => some (cmdExtract cache dylibPath outputPath)
  | _ => none

/-! ### Concrete test images -/

/-- Bytes of the string literal `"__DATA"`. -/
def dataName : ByteStr := [0x5F, 0x5F, 0x44, 0x41, 0x54, 0x41]

/-- A 32-byte `mach_header_64` (cputype arm64e, filetype `MH_DYLIB`). -/
def machHeaderBytes (magic ncmds sizeofcmds flags : Nat) : ByteStr :=
  u32le magic ++ u32le 0x0100000C ++ u32le 0 ++ u32le 6 ++ u32le ncmds ++ u32le sizeofcmds ++
    u32le flags ++ u32le 0

/-- A 72-byte `LC_SEGMENT_64` command with no sections. -/
def segCmdBytes (name : ByteStr) (vmaddr vmsize fileoff filesize : Nat) : ByteStr :=
  u32le LC_SEGMENT_64 ++ u32le 72 ++ (name ++ List.replicate (16 - name.length) 0) ++
    u64le vmaddr ++ u64le vmsize ++ u64le fileoff ++ u64le filesize ++
    u32le 5 ++ u32le 5 ++ u32le 0 ++ u32le 0

/-- A 24-byte `LC_SYMTAB` command, with an arbitrary `cmdsize`. -/
def symtabBytes (cmdsize symoff nsyms stroff strsize : Nat) : ByteStr :=
  u32le LC_SYMTAB ++ u32le cmdsize ++ u32le symoff ++ u32le nsyms ++ u32le stroff ++
    u32le strsize

/-- A 16-byte `LinkeditDataCommand`. -/
def linkeditDataBytes (cmd dataoff datasize : Nat) : ByteStr :=
  u32le cmd ++ u32le 16 ++ u32le dataoff ++ u32le datasize

/-- Image A: a wrong magic (`0x12345678`), `__TEXT`, `__LINKEDIT`, and a
final `LC_SYMTAB` whose `cmdsize` (1000) overruns the 200-byte buffer. -/
def fixABytes : ByteStr :=
  machHeaderBytes 0x12345678 3 168 0x80000085 ++
    segCmdBytes textName 0x180000000 0x4000 0x1000 0x4000 ++
    segCmdBytes linkeditName 0x190000000 0x2000 0x100000 0x2000 ++
    symtabBytes 1000 0x100010 4 0x100050 0x100

def fixAPath : ByteStr := asciiOf ("/usr/lib/libfix.dylib")

def fixACache : Cache :=
  { images := [⟨fixAPath, fixABytes, 0⟩]
    mappings := [⟨0x180000000, 0x4000, 0x1000, 0x100000⟩,
                 ⟨0x190000000, 0x2000, 0x200000, 0x300000⟩] }

/-- Image B: two segments named `__LINKEDIT`. -/
def fixBBytes : ByteStr :=
  machHeaderBytes MH_MAGIC_64 3 216 0x80000085 ++
    segCmdBytes textName 0x180000000 0x4000 0x1000 0x4000 ++
    segCmdBytes linkeditName 0x190000000 0x1000 0x100000 0x1000 ++
    segCmdBytes linkeditName 0x1A0000000 0x1000 0x200000 0x1000

def fixBPath : ByteStr := asciiOf ("/usr/lib/libtwo.dylib")

def fixBCache : Cache :=
  { images := [⟨fixBPath, fixBBytes, 0⟩]
    mappings := [⟨0x180000000, 0x4000, 0x1000, 0x100000⟩,
                 ⟨0x190000000, 0x1000, 0x200000, 0x300000⟩] }

/-- Image C: `__TEXT` (filesize 0x4000), `__DATA` (filesize 0x3000) and
`__LINKEDIT`, with no linkedit-bearing commands. -/
def fixCBytes : ByteStr :=
  machHeaderBytes MH_MAGIC_64 3 216 0x80000085 ++
    segCmdBytes textName 0x180000000 0x4000 0x1000 0x4000 ++
    segCmdBytes dataName 0x188000000 0x3000 0x8000 0x3000 ++
    segCmdBytes linkeditName 0x190000000 0x1000 0x100000 0x1000

def fixCPath : ByteStr := asciiOf ("/usr/lib/libthree.dylib")

def fixCCache : Cache :=
  { images := [⟨fixCPath, fixCBytes, 0⟩]
    mappings := [⟨0x180000000, 0x4000, 0x1000, 0x100000⟩,
                 ⟨0x188000000, 0x3000, 0x5000, 0x100000⟩,
                 ⟨0x190000000, 0x1000, 0x200000, 0x300000⟩] }

/-- Image D: linkedit bounds `(100, 110)` and `(0xFFFFFFF0, 0xFFFFFFF5)`,
so rebasing the second offset wraps below `linkedit_new_fileoff`. -/
def fixDBytes : ByteStr :=
  machHeaderBytes MH_MAGIC_64 4 184 0x80000085 ++
    segCmdBytes textName 0x180000000 0x4000 0x1000 0x4000 ++
    segCmdBytes linkeditName 0x190000000 0x2000 0x100000 0x2000 ++
    symtabBytes 24 0 0 100 10 ++
    linkeditDataBytes LC_FUNCTION_STARTS 0xFFFFFFF0 5

def fixDPath : ByteStr := asciiOf ("/usr/lib/libwrap.dylib")

def fixDCache : Cache :=
  { images := [⟨fixDPath, fixDBytes, 0⟩]
    mappings := [⟨0x180000000, 0x4000, 0x1000, 0x100000⟩,
                 ⟨0x18FF00000, 0x100001000, 0, 0x100000000⟩] }

/-- Image E: a single `__TEXT` segment and no `__LINKEDIT`. -/
def fixEBytes : ByteStr :=
  machHeaderBytes MH_MAGIC_64 1 72 0x80000085 ++
    segCmdBytes textName 0x180000000 0x4000 0x1000 0x4000

def fixEPath : ByteStr := asciiOf ("/usr/lib/libnole.dylib")

def fixECache : Cache :=
  { images := [⟨fixEPath, fixEBytes, 0⟩]
    mappings := [⟨0x180000000, 0x4000, 0x1000, 0x100000⟩] }

/-- Fallback values for reading components out of a result list. -/
def noSegPatch : SegPatch := ⟨[], 0, 0, 0, 0, 0, 0, 0, 0⟩

def noPairPatch : PairPatch := ⟨0, 0, 0, 0, 0⟩

def noResult : ExtractResult := ⟨0, 0, [], [], 0, 0, [], [], [], [], 0, 0, 0, 0⟩

/-! ### Supporting lemmas -/

theorem wadd32_eq {a b : Nat} (h : a + b < 2 ^ 32) : wadd32 a b = a + b :=
  Nat.mod_eq_of_lt h

theorem wsub32_eq {a b : Nat} (hb : b ≤ a) (ha : a < 2 ^ 32) : wsub32 a b = a - b := by
  unfold wsub32
  rw [Nat.mod_eq_of_lt (lt_of_le_of_lt hb ha)]
  rw [show a + 2 ^ 32 - b = 2 ^ 32 + (a - b) by omega, Nat.add_mod_left]
  exact Nat.mod_eq_of_lt (by omega)

theorem foldl_min_le_init (l : List Nat) : ∀ a, l.foldl Nat.min a ≤ a := by
  induction l with
  | nil => intro a; simp
  | cons x xs ih =>
    intro a
    exact le_trans (ih (Nat.min a x)) (Nat.min_le_left _ _)

theorem foldl_min_le_mem {l : List Nat} {x : Nat} (hx : x ∈ l) :
    ∀ a, l.foldl Nat.min a ≤ x := by
  induction l with
  | nil => cases hx
  | cons y ys ih =>
    intro a
    rcases List.mem_cons.mp hx with h | h
    · subst h
      exact le_trans (foldl_min_le_init ys _) (Nat.min_le_right _ _)
    · exact ih h _

theorem le_foldl_max_init (l : List Nat) : ∀ a, a ≤ l.foldl Nat.max a := by
  induction l with
  | nil => intro a; simp
  | cons x xs ih =>
    intro a
    exact le_trans (Nat.le_max_left a x) (ih (Nat.max a x))

theorem le_foldl_max_mem {l : List Nat} {x : Nat} (hx : x ∈ l) :
    ∀ a, x ≤ l.foldl Nat.max a := by
  induction l with
  | nil => cases hx
  | cons y ys ih =>
    intro a
    rcases List.mem_cons.mp hx with h | h
    · subst h
      exact le_trans (Nat.le_max_right a _) (le_foldl_max_init ys _)
    · exact ih h _

theorem foldl_min_mem (l : List Nat) : ∀ a, l.foldl Nat.min a = a ∨ l.foldl Nat.min a ∈ l := by
  induction l with
  | nil => intro a; left; rfl
  | cons x xs ih =>
    intro a
    rcases ih (Nat.min a x) with h | h
    · rcases Nat.le_total a x with hax | hxa
      · left; simpa [Nat.min_eq_left hax] using h
      · right
        have hmx : Nat.min a x = x := Nat.min_eq_right hxa
        rw [List.foldl_cons, h, hmx]
        exact List.mem_cons_self _ _
    · right; exact List.mem_cons_of_mem _ h

theorem foldl_max_mem (l : List Nat) : ∀ a, l.foldl Nat.max a = a ∨ l.foldl Nat.max a ∈ l := by
  induction l with
  | nil => intro a; left; rfl
  | cons x xs ih =>
    intro a
    rcases ih (Nat.max a x) with h | h
    · rcases Nat.le_total x a with hxa | hax
      · left; simpa [Nat.max_eq_left hxa] using h
      · right
        have hmx : Nat.max a x = x := Nat.max_eq_right hax
        rw [List.foldl_cons, h, hmx]
        exact List.mem_cons_self _ _
    · right; exact List.mem_cons_of_mem _ h

/-! ### C5 — the extracted linkedit range -/

/-- C5 (counterexample): the fallback range is the `__LINKEDIT` segment range
truncated `as u32`, so for `old_fileoff = 2^32` it is `(0, 0x1000)`, not the
claimed exact `(2^32, 2^32 + 0x1000)`. -/
theorem c5_counterexample :
    linkeditRange [] (2 ^ 32) 0x1000 ≠ (2 ^ 32, 2 ^ 32 + 0x1000) := by decide

/-- C5 (amended): with no recorded bounds the extracted range is the full
`__LINKEDIT` segment range reduced mod `2^32` (exact whenever
`old_fileoff + old_filesize < 2^32`); with recorded bounds, `min_off` is the
least recorded offset and `max_end` the greatest recorded end. -/
theorem c5_linkedit_range_amended (fo fs o e : Nat) (bounds : List (Nat × Nat))
    (b : Nat × Nat) (bs : List (Nat × Nat)) (hbs : bounds = b :: bs)
    (hmem : (o, e) ∈ bounds) :
    linkeditRange [] fo fs = (fo % 2 ^ 32, (fo + fs) % 2 ^ 64 % 2 ^ 32) ∧
    (fo + fs < 2 ^ 32 → linkeditRange [] fo fs = (fo, fo + fs)) ∧
    (linkeditRange bounds fo fs).1 ≤ o ∧ e ≤ (linkeditRange bounds fo fs).2 ∧
    (linkeditRange bounds fo fs).1 ∈ bounds.map Prod.fst ∧
    (linkeditRange bounds fo fs).2 ∈ bounds.map Prod.snd := by
  subst hbs
  refine ⟨rfl, ?_, ?_, ?_, ?_, ?_⟩
  · intro h
    have hfo : fo < 2 ^ 32 := lt_of_le_of_lt (Nat.le_add_right _ _) h
    have h64 : fo + fs < 2 ^ 64 := lt_trans h (by norm_num)
    simp only [linkeditRange, Nat.mod_eq_of_lt hfo, Nat.mod_eq_of_lt h64, Nat.mod_eq_of_lt h]
  · rcases List.mem_cons.mp hmem with h | h
    · rw [← h]
      exact foldl_min_le_init _ _
    · exact foldl_min_le_mem (by exact List.mem_map_of_mem Prod.fst h) _
  · rcases List.mem_cons.mp hmem with h | h
    · rw [← h]
      exact le_foldl_max_init _ _
    · exact le_foldl_max_mem (by exact List.mem_map_of_mem Prod.snd h) _
  · rcases foldl_min_mem ((bs.map Prod.fst)) b.1 with h | h
    · simp only [linkeditRange, h, List.map_cons]
      exact List.mem_cons_self _ _
    · simp only [linkeditRange, List.map_cons]
      exact List.mem_cons_of_mem _ h
  · rcases foldl_max_mem ((bs.map Prod.snd)) b.2 with h | h
    · simp only [linkeditRange, h, List.map_cons]
      exact List.mem_cons_self _ _
    · simp only [linkeditRange, List.map_cons]
      exact List.mem_cons_of_mem _ h

/-- Witness for C5's amended theorem at a concrete bounds list. -/
theorem c5_witness :
    linkeditRange [] 0x100000 0x1000 = (0x100000 % 2 ^ 32, (0x100000 + 0x1000) % 2 ^ 64 % 2 ^ 32) ∧
    (0x100000 + 0x1000 < 2 ^ 32 → linkeditRange [] 0x100000 0x1000 = (0x100000, 0x100000 + 0x1000)) ∧
    (linkeditRange [(5, 10), (3, 20)] 0x100000 0x1000).1 ≤ 3 ∧
    20 ≤ (linkeditRange [(5, 10), (3, 20)] 0x100000 0x1000).2 ∧
    (linkeditRange [(5, 10), (3, 20)] 0x100000 0x1000).1 ∈ [(5, 10), (3, 20)].map Prod.fst ∧
    (linkeditRange [(5, 10), (3, 20)] 0x100000 0x1000).2 ∈ [(5, 10), (3, 20)].map Prod.snd :=
  c5_linkedit_range_amended 0x100000 0x1000 3 20 [(5, 10), (3, 20)] (5, 10) [(3, 20)] rfl
    (by decide)

/-! ### C6 — the linkedit patch rule -/

/-- C6: the `patch_linkedit!` rule, in the source's 32-bit unsigned
arithmetic: a non-zero offset with a non-zero size field is rebased to
`new_base + (off - min_off)`, a non-zero offset with a zero size field is
cleared, a zero offset is left unchanged; including the three concrete
instances from the spec. -/
theorem c6_patch_rule (off sizeField base min_off : Nat)
    (hoff32 : off < 2 ^ 32) (hle : min_off ≤ off)
    (hsum : base + (off - min_off) < 2 ^ 32) :
    (off ≠ 0 → sizeField ≠ 0 →
      patch_linkedit off sizeField base min_off = base + (off - min_off)) ∧
    (off ≠ 0 → sizeField = 0 → patch_linkedit off sizeField base min_off = 0) ∧
    (off = 0 → patch_linkedit off sizeField base min_off = off) ∧
    patch_linkedit 1000 200 500 800 = 700 ∧
    patch_linkedit 1000 0 500 800 = 0 ∧
    patch_linkedit 0 200 500 800 = 0 := by
  refine ⟨?_, ?_, ?_, by decide, by decide, by decide⟩
  · intro h1 h2
    rw [patch_linkedit, if_pos ⟨h1, h2⟩, wsub32_eq hle hoff32, wadd32_eq hsum]
  · intro h1 h2
    rw [patch_linkedit, if_neg (by simp [h2]), if_pos h1]
  · intro h1
    rw [patch_linkedit, if_neg (by simp [h1]), if_neg (by simp [h1])]

/-- Witness for C6 at the spec's concrete inputs. -/
theorem c6_witness :
    (1000 ≠ 0 → 200 ≠ 0 → patch_linkedit 1000 200 500 800 = 500 + (1000 - 800)) ∧
    (1000 ≠ 0 → 200 = 0 → patch_linkedit 1000 200 500 800 = 0) ∧
    (1000 = 0 → patch_linkedit 1000 200 500 800 = 1000) ∧
    patch_linkedit 1000 200 500 800 = 700 ∧
    patch_linkedit 1000 0 500 800 = 0 ∧
    patch_linkedit 0 200 500 800 = 0 :=
  c6_patch_rule 1000 200 500 800 (by decide) (by decide) (by decide)

theorem RResult.bind_eq_ok {α β : Type} {x : RResult α} {f : α → RResult β} {b : β} :
    RResult.bind x f = .ok b ↔ ∃ a, x = .ok a ∧ f a = .ok b := by
  cases x <;> simp [RResult.bind]

/-- Inversion of `cmdExtract`'s success path: how the reported fields of the
result record relate to each other. -/
theorem cmdExtract_ok_spec {cache : Cache} {d : ByteStr} {o : Option ByteStr}
    {r : ExtractResult} (h : cmdExtract cache d o = .ok r) :
    r.outputPath = outputPathOf o d ∧
    r.diag = extractedLine d r.outputPath r.totalSize ∧
    r.outputLen = r.totalSize ∧
    r.newFlags = patchFlags r.oldFlags ∧
    r.totalSize = wadd64 r.linkeditNewFileoff r.linkeditExtractSize ∧
    r.linkeditExtractSize = wsub32 r.maxEnd r.minOff := by
  simp only [cmdExtract] at h
  split at h
  · cases h
  · split at h
    · cases h
    · split at h
      · cases h
      · split at h
        · cases h
        · rw [RResult.bind_eq_ok] at h
          obtain ⟨acc, -, h⟩ := h
          split at h
          · cases h
          · split at h
            · cases h
            · split at h
              · cases h
              · rw [RResult.bind_eq_ok] at h
                obtain ⟨ps, -, h⟩ := h
                rw [RResult.bind_eq_ok] at h
                obtain ⟨u, -, h⟩ := h
                split at h
                · cases h
                · cases h
                  exact ⟨rfl, rfl, rfl, rfl, rfl, rfl⟩

/-! ### C9 — the header flags patch -/

theorem patchFlags_eq_mod (flags : Nat) : patchFlags flags = flags % 2 ^ 31 := by
  have : (2 ^ 32 - 1 - MH_DYLIB_IN_CACHE : Nat) = 2 ^ 31 - 1 := by norm_num [MH_DYLIB_IN_CACHE]
  rw [patchFlags, this]
  exact Nat.and_pow_two_sub_one_eq_mod flags 31

/-- C9: the output header's flags are written as `patchFlags` of the input
flags, and `patchFlags` clears exactly the `MH_DYLIB_IN_CACHE` bit (bit 31):
it is 0 in the result and every other bit is unchanged. -/
theorem c9_flags_rule (flags i : Nat) (hf : flags < 2 ^ 32) (hi : i ≠ 31)
    (cache : Cache) (d : ByteStr) (o : Option ByteStr) (r : ExtractResult)
    (hok : cmdExtract cache d o = .ok r) :
    r.newFlags = patchFlags r.oldFlags ∧
    (patchFlags flags).testBit 31 = false ∧
    (patchFlags flags).testBit i = flags.testBit i := by
  refine ⟨(cmdExtract_ok_spec hok).2.2.2.1, ?_, ?_⟩
  · rw [patchFlags_eq_mod, Nat.testBit_mod_two_pow]
    simp
  · rw [patchFlags_eq_mod, Nat.testBit_mod_two_pow]
    by_cases h31 : i < 31
    · simp [h31]
    · have h32 : 32 ≤ i := by omega
      have hb : flags.testBit i = false :=
        Nat.testBit_lt_two_pow (lt_of_lt_of_le hf (Nat.pow_le_pow_right (by norm_num) h32))
      simp [h31, hb]

/-- Witness for C9 at image A (flags `0x80000085`, bit 0 probed). -/
theorem c9_witness :
    ((cmdExtract fixACache fixAPath none).getOk noResult).newFlags =
      patchFlags ((cmdExtract fixACache fixAPath none).getOk noResult).oldFlags ∧
    (patchFlags 0x80000085).testBit 31 = false ∧
    (patchFlags 0x80000085).testBit 0 = (0x80000085 : Nat).testBit 0 :=
  c9_flags_rule 0x80000085 0 (by norm_num) (by norm_num) fixACache fixAPath none
    ((cmdExtract fixACache fixAPath none).getOk noResult)
    (by set_option maxRecDepth 100000 in decide)

/-! ### C10 — segment-name decoding -/

theorem take_findIdx_eq_takeWhile (l : List Nat) :
    l.take ((List.findIdx? (fun b => b == 0) l).getD l.length) =
      l.takeWhile (fun b => b != 0) := by
  induction l with
  | nil => rfl
  | cons x xs ih =>
    rw [List.findIdx?_cons, List.findIdx?_succ]
    by_cases hx : x = 0
    · simp [hx, List.takeWhile_cons]
    · rw [if_neg (by simp [hx]), List.takeWhile_cons, if_pos (by simp [hx])]
      cases hfi : List.findIdx? (fun b => b == 0) xs with
      | none =>
        rw [hfi] at ih
        simp only [Option.getD_none] at ih
        simp only [Option.map_none', Option.getD_none, List.length_cons, List.take_succ_cons]
        rw [ih]
      | some j =>
        rw [hfi] at ih
        simp only [Option.getD_some] at ih
        simp only [Option.map_some', Option.getD_some, List.take_succ_cons]
        rw [ih]

/-- C10: for a 16-byte raw segment name, `seg_name` decodes exactly the bytes
strictly before the first NUL (all 16 when none is present — i.e. the longest
`!= 0` prefix), yields the empty string when those bytes are not valid UTF-8,
and such a name can match neither `"__LINKEDIT"` nor `"__TEXT"`. -/
theorem c10_seg_name_rule (raw : ByteStr) (h : raw.length = 16) :
    seg_name raw =
      (if utf8Valid (raw.takeWhile (fun b => b != 0)) then raw.takeWhile (fun b => b != 0)
       else []) ∧
    (utf8Valid (raw.takeWhile (fun b => b != 0)) = false →
      seg_name raw ≠ linkeditName ∧ seg_name raw ≠ textName) := by
  have key : raw.take ((List.findIdx? (fun b => b == 0) raw).getD 16) =
      raw.takeWhile (fun b => b != 0) := by
    rw [← h]
    exact take_findIdx_eq_takeWhile raw
  have hsn : seg_name raw =
      (if utf8Valid (raw.takeWhile (fun b => b != 0)) then raw.takeWhile (fun b => b != 0)
       else []) := by
    simp only [seg_name]
    rw [key]
  refine ⟨hsn, fun hv => ?_⟩
  rw [hsn, if_neg (by simp [hv])]
  exact ⟨by decide, by decide⟩

/-- Witness for C10 at a name whose first byte is `0xFF` (invalid UTF-8). -/
theorem c10_witness :
    seg_name [0xFF, 0, 0, 0, 0, 0, 0, 0, 0, 0, 0, 0, 0, 0, 0, 0] =
      (if utf8Valid (([0xFF, 0, 0, 0, 0, 0, 0, 0, 0, 0, 0, 0, 0, 0, 0, 0] :
          ByteStr).takeWhile (fun b => b != 0)) then
        ([0xFF, 0, 0, 0, 0, 0, 0, 0, 0, 0, 0, 0, 0, 0, 0, 0] :
          ByteStr).takeWhile (fun b => b != 0)
       else []) ∧
    (utf8Valid (([0xFF, 0, 0, 0, 0, 0, 0, 0, 0, 0, 0, 0, 0, 0, 0, 0] :
        ByteStr).takeWhile (fun b => b != 0)) = false →
      seg_name [0xFF, 0, 0, 0, 0, 0, 0, 0, 0, 0, 0, 0, 0, 0, 0, 0] ≠ linkeditName ∧
      seg_name [0xFF, 0, 0, 0, 0, 0, 0, 0, 0, 0, 0, 0, 0, 0, 0, 0] ≠ textName) :=
  c10_seg_name_rule [0xFF, 0, 0, 0, 0, 0, 0, 0, 0, 0, 0, 0, 0, 0, 0, 0] (by decide)

/-! ### C2 — virtual addresses in the output segment commands -/

theorem mem_enum_get? {α : Type} {l : List α} {i : Nat} {s : α} (h : (i, s) ∈ l.enum) :
    l.get? i = some s := by
  obtain ⟨hlt, heq⟩ := List.mem_enum h
  rw [List.get?_eq_getElem?, List.getElem?_eq_getElem hlt, heq]

theorem find?_get_of_findIdx? {α : Type} {p : α → Bool} :
    ∀ {l : List α} {i : Nat} {a : α},
      List.findIdx? p l = some i → List.find? p l = some a → l.get? i = some a := by
  intro l
  induction l with
  | nil => intro i a h1 _; simp [List.findIdx?_nil] at h1
  | cons x xs ih =>
    intro i a h1 h2
    rw [List.findIdx?_cons] at h1
    rw [List.find?_cons] at h2
    by_cases hx : p x
    · rw [if_pos hx] at h1
      simp only [hx] at h2
      cases h1
      cases h2
      rfl
    · rw [if_neg hx, List.findIdx?_succ] at h1
      simp only [Bool.of_not_eq_true hx] at h2
      obtain ⟨j, hj, rfl⟩ := Option.map_eq_some'.mp h1
      exact ih hj h2

/-- Every layout produced by the non-linkedit placement loop keeps its
segment's `vmaddr`, `vmsize` and `old_filesize`, and belongs to a segment not
named `__LINKEDIT`. -/
theorem buildLayouts_mem {ps : List (Nat × SegmentInfo)} {c : Nat} {l : NewSegLayout}
    (hl : l ∈ (buildLayouts ps c).1) :
    ∃ q ∈ ps, q.1 = l.seg_index ∧ seg_name q.2.name ≠ linkeditName ∧
      l.new_vmaddr = q.2.vmaddr ∧ l.new_vmsize = q.2.vmsize ∧
      l.new_filesize = q.2.old_filesize := by
  induction ps generalizing c with
  | nil => cases hl
  | cons q qs ih =>
    obtain ⟨i, seg⟩ := q
    by_cases hle : seg_name seg.name = linkeditName
    · rw [show buildLayouts ((i, seg) :: qs) c = buildLayouts qs c by
        simp [buildLayouts, hle]] at hl
      obtain ⟨q', hq', rest⟩ := ih hl
      exact ⟨q', List.mem_cons_of_mem _ hq', rest⟩
    · by_cases htx : seg_name seg.name = textName
      · rw [show (buildLayouts ((i, seg) :: qs) c).1 =
            ⟨i, 0, seg.old_filesize, seg.vmaddr, seg.vmsize⟩ ::
              (buildLayouts qs seg.old_filesize).1 by
          simp [buildLayouts, hle, htx, show textName ≠ linkeditName by decide]] at hl
        rcases List.mem_cons.mp hl with h | h
        · exact ⟨(i, seg), List.mem_cons_self _ _, by rw [h], hle, by rw [h], by rw [h],
            by rw [h]⟩
        · obtain ⟨q', hq', rest⟩ := ih h
          exact ⟨q', List.mem_cons_of_mem _ hq', rest⟩
      · rw [show (buildLayouts ((i, seg) :: qs) c).1 =
            ⟨i, align_to c PAGE_SIZE, seg.old_filesize, seg.vmaddr, seg.vmsize⟩ ::
              (buildLayouts qs (wadd64 (align_to c PAGE_SIZE) seg.old_filesize)).1 by
          simp [buildLayouts, hle, htx]] at hl
        rcases List.mem_cons.mp hl with h | h
        · exact ⟨(i, seg), List.mem_cons_self _ _, by rw [h], hle, by rw [h], by rw [h],
            by rw [h]⟩
        · obtain ⟨q', hq', rest⟩ := ih h
          exact ⟨q', List.mem_cons_of_mem _ hq', rest⟩

/-- C2 (counterexample): extracting image A writes a `__LINKEDIT` segment
command whose `vmaddr` and `vmsize` differ from the original cache values
(`0x190000010 ≠ 0x190000000`, `0x140 ≠ 0x2000`). -/
theorem c2_counterexample :
    (((cmdExtract fixACache fixAPath none).getOk noResult).segPatches.getD 1 noSegPatch).name =
      linkeditName ∧
    (((cmdExtract fixACache fixAPath none).getOk noResult).segPatches.getD 1
        noSegPatch).newVmaddr ≠
      (((cmdExtract fixACache fixAPath none).getOk noResult).segPatches.getD 1
        noSegPatch).oldVmaddr ∧
    (((cmdExtract fixACache fixAPath none).getOk noResult).segPatches.getD 1
        noSegPatch).newVmsize ≠
      (((cmdExtract fixACache fixAPath none).getOk noResult).segPatches.getD 1
        noSegPatch).oldVmsize := by
  set_option maxRecDepth 100000 in decide

/-- C2 (amended): the planned layout preserves `vmaddr` and `vmsize` for
every segment not named `__LINKEDIT`; the `__LINKEDIT` segment command
instead receives `vmaddr = old_vmaddr + (min_off - old_fileoff)` (wrapping
u64) and `vmsize = linkedit_extract_size`. -/
theorem c2_vmaddr_rule_amended (segments : List SegmentInfo) (le : SegmentInfo)
    (min_off extract : Nat) (layouts : List NewSegLayout) (lnf : Nat)
    (hfind : segments.find? (fun s => seg_name s.name == linkeditName) = some le)
    (hp : planLayout segments le min_off extract = some (layouts, lnf))
    (l : NewSegLayout) (hl : l ∈ layouts) (seg : SegmentInfo)
    (hseg : segments.get? l.seg_index = some seg) :
    (seg_name seg.name ≠ linkeditName →
      l.new_vmaddr = seg.vmaddr ∧ l.new_vmsize = seg.vmsize) ∧
    (seg_name seg.name = linkeditName →
      l.new_vmaddr = wadd64 seg.vmaddr (wsub64 min_off seg.old_fileoff) ∧
      l.new_vmsize = extract) := by
  simp only [planLayout] at hp
  split at hp
  · cases hp
  · rename_i idx hidx
    cases hp
    rcases List.mem_append.mp hl with h | h
    · obtain ⟨q, hq, hqi, hqname, hva, hvs, -⟩ := buildLayouts_mem h
      have : segments.get? l.seg_index = some q.2 := by
        rw [← hqi]
        exact mem_enum_get? (by rwa [show (q.1, q.2) = q by rfl])
      rw [hseg] at this
      cases this
      exact ⟨fun _ => ⟨hva, hvs⟩, fun hcon => absurd hcon hqname⟩
    · rcases List.mem_singleton.mp h with rfl
      have hgle : segments.get? idx = some le := find?_get_of_findIdx? hidx hfind
      rw [show (⟨idx, align_to (buildLayouts segments.enum 0).2 PAGE_SIZE, extract,
          wadd64 le.vmaddr (wsub64 min_off le.old_fileoff), extract⟩ :
            NewSegLayout).seg_index = idx from rfl] at hseg
      rw [hgle] at hseg
      cases hseg
      have hname : seg_name le.name = linkeditName := by
        have := List.find?_some hfind
        simpa using this
      exact ⟨fun hcon => absurd hname hcon, fun _ => ⟨rfl, rfl⟩⟩

/-- The segments of image A, as collected. -/
def witSegText : SegmentInfo :=
  ⟨textName ++ List.replicate 10 0, 0x180000000, 0x4000, 0x1000, 0x4000, 32⟩

def witSegLE : SegmentInfo :=
  ⟨linkeditName ++ List.replicate 6 0, 0x190000000, 0x2000, 0x100000, 0x2000, 104⟩

/-- The `__LINKEDIT` layout planned for image A. -/
def witLayoutLE : NewSegLayout := ⟨1, 0x4000, 0x140, 0x190000010, 0x140⟩

/-- Witness for C2's amended theorem at image A's segment list. -/
theorem c2_witness :
    (seg_name witSegLE.name ≠ linkeditName →
      witLayoutLE.new_vmaddr = witSegLE.vmaddr ∧ witLayoutLE.new_vmsize = witSegLE.vmsize) ∧
    (seg_name witSegLE.name = linkeditName →
      witLayoutLE.new_vmaddr = wadd64 witSegLE.vmaddr (wsub64 0x100010 witSegLE.old_fileoff) ∧
      witLayoutLE.new_vmsize = 0x140) :=
  c2_vmaddr_rule_amended [witSegText, witSegLE] witSegLE 0x100010 0x140
    [⟨0, 0, 0x4000, 0x180000000, 0x4000⟩, witLayoutLE] 0x4000
    (by set_option maxRecDepth 10000 in decide)
    (by set_option maxRecDepth 10000 in decide)
    witLayoutLE (by set_option maxRecDepth 10000 in decide)
    witSegLE (by set_option maxRecDepth 10000 in decide)

/-! ### C4 — the output's total size -/

theorem buildLayouts_cons_linkedit {i : Nat} {seg : SegmentInfo}
    {qs : List (Nat × SegmentInfo)} {c : Nat} (h : seg_name seg.name = linkeditName) :
    buildLayouts ((i, seg) :: qs) c = buildLayouts qs c := by
  simp [buildLayouts, h]

theorem buildLayouts_cons_text {i : Nat} {seg : SegmentInfo}
    {qs : List (Nat × SegmentInfo)} {c : Nat} (h2 : seg_name seg.name = textName) :
    buildLayouts ((i, seg) :: qs) c =
      (⟨i, 0, seg.old_filesize, seg.vmaddr, seg.vmsize⟩ ::
          (buildLayouts qs seg.old_filesize).1,
        (buildLayouts qs seg.old_filesize).2) := by
  simp [buildLayouts, h2, show textName ≠ linkeditName by decide]

theorem buildLayouts_cons_other {i : Nat} {seg : SegmentInfo}
    {qs : List (Nat × SegmentInfo)} {c : Nat} (h1 : seg_name seg.name ≠ linkeditName)
    (h2 : seg_name seg.name ≠ textName) :
    buildLayouts ((i, seg) :: qs) c =
      (⟨i, align_to c PAGE_SIZE, seg.old_filesize, seg.vmaddr, seg.vmsize⟩ ::
          (buildLayouts qs (wadd64 (align_to c PAGE_SIZE) seg.old_filesize)).1,
        (buildLayouts qs (wadd64 (align_to c PAGE_SIZE) seg.old_filesize)).2) := by
  simp [buildLayouts, h1, h2]

/-- Rounding behaviour of `align_to` below the wrap point. -/
theorem align_to_spec {c : Nat} (h : c + (PAGE_SIZE - 1) < 2 ^ 64) :
    c ≤ align_to c PAGE_SIZE ∧ align_to c PAGE_SIZE ≤ c + (PAGE_SIZE - 1) := by
  simp only [align_to, PAGE_SIZE] at *
  omega

/-- An upper bound on the space the layout loop can consume: each segment
costs at most its filesize plus one page of alignment. -/
def sumCost (ps : List (Nat × SegmentInfo)) : Nat :=
  ps.foldr (fun q a => q.2.old_filesize + PAGE_SIZE + a) 0

/-- When no segment in the list is named `__TEXT` and the arithmetic stays
below `2^64`, the layout cursor after the loop is the maximum segment end
(folded from the incoming cursor), and it is monotone and bounded. -/
theorem buildLayouts_cursor_spec :
    ∀ (ps : List (Nat × SegmentInfo)) (c : Nat),
      c + sumCost ps < 2 ^ 64 →
      (∀ q ∈ ps, seg_name q.2.name ≠ textName) →
      (buildLayouts ps c).2 =
        ((buildLayouts ps c).1.map fun l => l.new_fileoff + l.new_filesize).foldl Nat.max c ∧
      c ≤ (buildLayouts ps c).2 ∧ (buildLayouts ps c).2 ≤ c + sumCost ps := by
  intro ps
  induction ps with
  | nil => intro c h64 hnt; exact ⟨rfl, Nat.le_refl c, Nat.le_add_right c _⟩
  | cons q qs ih =>
    intro c h64 hnt
    obtain ⟨i, seg⟩ := q
    have hcost : sumCost ((i, seg) :: qs) = seg.old_filesize + PAGE_SIZE + sumCost qs := rfl
    by_cases hle : seg_name seg.name = linkeditName
    · rw [buildLayouts_cons_linkedit hle]
      have h64' : c + sumCost qs < 2 ^ 64 := by rw [hcost] at h64; omega
      obtain ⟨e1, e2, e3⟩ := ih c h64' fun q hq => hnt q (List.mem_cons_of_mem _ hq)
      exact ⟨e1, e2, by rw [hcost]; omega⟩
    · have htx : seg_name seg.name ≠ textName := hnt (i, seg) (List.mem_cons_self _ _)
      rw [buildLayouts_cons_other hle htx]
      have hpage : c + (PAGE_SIZE - 1) < 2 ^ 64 := by
        rw [hcost] at h64; simp only [PAGE_SIZE] at *; omega
      obtain ⟨ha1, ha2⟩ := align_to_spec hpage
      have hsum : align_to c PAGE_SIZE + seg.old_filesize < 2 ^ 64 := by
        rw [hcost] at h64; simp only [PAGE_SIZE] at *; omega
      have hc' : wadd64 (align_to c PAGE_SIZE) seg.old_filesize =
          align_to c PAGE_SIZE + seg.old_filesize := Nat.mod_eq_of_lt hsum
      have h64' : wadd64 (align_to c PAGE_SIZE) seg.old_filesize + sumCost qs < 2 ^ 64 := by
        rw [hc']; rw [hcost] at h64; simp only [PAGE_SIZE] at *; omega
      obtain ⟨e1, e2, e3⟩ :=
        ih (wadd64 (align_to c PAGE_SIZE) seg.old_filesize) h64'
          fun q hq => hnt q (List.mem_cons_of_mem _ hq)
      have hmax : Nat.max c (align_to c PAGE_SIZE + seg.old_filesize) =
          align_to c PAGE_SIZE + seg.old_filesize :=
        Nat.max_eq_right (Nat.le_trans ha1 (Nat.le_add_right _ _))
      refine ⟨?_, ?_, ?_⟩
      · simp only [List.map_cons, List.foldl_cons]
        rw [hmax, ← hc']
        exact e1
      · exact Nat.le_trans (Nat.le_trans ha1 (Nat.le_add_right _ seg.old_filesize))
          (by rw [← hc']; exact e2)
      · rw [hcost]
        have e3' : (buildLayouts qs (wadd64 (align_to c PAGE_SIZE) seg.old_filesize)).2 ≤
            align_to c PAGE_SIZE + seg.old_filesize + sumCost qs :=
          le_trans e3 (le_of_eq (by rw [hc']))
        simp only [PAGE_SIZE] at *
        omega

/-- The cursor starting from 0, allowing `__TEXT` only as the first
non-linkedit segment: it equals the maximum non-linkedit segment end. -/
theorem buildLayouts_cursor_zero :
    ∀ ps : List (Nat × SegmentInfo),
      sumCost ps < 2 ^ 64 →
      (∀ q ∈ (ps.filter fun q => !(seg_name q.2.name == linkeditName)).drop 1,
        seg_name q.2.name ≠ textName) →
      (buildLayouts ps 0).2 =
        ((buildLayouts ps 0).1.map fun l => l.new_fileoff + l.new_filesize).foldl Nat.max 0 := by
  intro ps
  induction ps with
  | nil => intro _ _; rfl
  | cons q qs ih =>
    intro h64 htext
    obtain ⟨i, seg⟩ := q
    have hcost : sumCost ((i, seg) :: qs) = seg.old_filesize + PAGE_SIZE + sumCost qs := rfl
    by_cases hle : seg_name seg.name = linkeditName
    · rw [buildLayouts_cons_linkedit hle]
      refine ih (by rw [hcost] at h64; omega) ?_
      have : ((i, seg) :: qs).filter (fun q => !(seg_name q.2.name == linkeditName)) =
          qs.filter fun q => !(seg_name q.2.name == linkeditName) := by
        rw [List.filter_cons]
        simp [hle]
      rwa [this] at htext
    · have hfil : ((i, seg) :: qs).filter (fun q => !(seg_name q.2.name == linkeditName)) =
          (i, seg) :: qs.filter fun q => !(seg_name q.2.name == linkeditName) := by
        rw [List.filter_cons]
        simp [hle]
      have htail : ∀ q ∈ qs, seg_name q.2.name ≠ textName := by
        intro q hq
        by_cases hql : seg_name q.2.name = linkeditName
        · rw [hql]; decide
        · refine htext q ?_
          rw [hfil]
          simp only [List.drop_one, List.tail_cons]
          exact List.mem_filter.mpr ⟨hq, by simp [hql]⟩
      by_cases htx : seg_name seg.name = textName
      · rw [buildLayouts_cons_text htx]
        have h64' : seg.old_filesize + sumCost qs < 2 ^ 64 := by
          rw [hcost] at h64; simp only [PAGE_SIZE] at *; omega
        obtain ⟨e1, -, -⟩ := buildLayouts_cursor_spec qs seg.old_filesize h64' htail
        simp only [List.map_cons, List.foldl_cons, Nat.zero_add]
        have hm0 : Nat.max 0 seg.old_filesize = seg.old_filesize :=
          Nat.max_eq_right (Nat.zero_le _)
        rw [hm0]
        exact e1
      · have hnt : ∀ q ∈ (i, seg) :: qs, seg_name q.2.name ≠ textName := by
          intro q hq
          rcases List.mem_cons.mp hq with h | h
          · rw [h]; exact htx
          · exact htail q h
        obtain ⟨e1, -, -⟩ :=
          buildLayouts_cursor_spec ((i, seg) :: qs) 0 (by omega) hnt
        exact e1

/-- C4 (counterexample): for image C (text 0x4000, data 0x3000, linkedit
0x1000) the output length is `0x9000`, whereas
`align_up(sum of non-linkedit new ends) + linkedit_extract_size`
is `align_up(0x4000 + 0x7000) + 0x1000 = 0xD000`. -/
theorem c4_counterexample :
    ((cmdExtract fixCCache fixCPath none).getOk noResult).outputLen ≠
      align_to ((((cmdExtract fixCCache fixCPath none).getOk noResult).segPatches.filter
          fun p => !(p.name == linkeditName)).map
          fun p => p.newFileoff + p.newFilesize).sum PAGE_SIZE +
        ((cmdExtract fixCCache fixCPath none).getOk noResult).linkeditExtractSize := by
  set_option maxRecDepth 100000 in decide

/-- C4 (amended): the total size is
`align_up(max of non-linkedit new ends, 0x4000) + linkedit_extract_size` —
the *maximum* (equivalently, final) non-linkedit end, not their sum —
provided `__TEXT` appears only as the first non-linkedit segment and the
layout arithmetic stays below `2^64`. -/
theorem c4_total_size_amended (segments : List SegmentInfo) (le : SegmentInfo)
    (min_off extract : Nat) (layouts : List NewSegLayout) (lnf : Nat)
    (hp : planLayout segments le min_off extract = some (layouts, lnf))
    (htext : ∀ q ∈ (segments.enum.filter fun q =>
        !(seg_name q.2.name == linkeditName)).drop 1, seg_name q.2.name ≠ textName)
    (h64 : sumCost segments.enum < 2 ^ 64)
    (hext : align_to ((layouts.dropLast.map fun l => l.new_fileoff + l.new_filesize).foldl
        Nat.max 0) PAGE_SIZE + extract < 2 ^ 64) :
    lnf = align_to ((layouts.dropLast.map fun l => l.new_fileoff + l.new_filesize).foldl
        Nat.max 0) PAGE_SIZE ∧
    wadd64 lnf extract =
      align_to ((layouts.dropLast.map fun l => l.new_fileoff + l.new_filesize).foldl
        Nat.max 0) PAGE_SIZE + extract := by
  simp only [planLayout] at hp
  split at hp
  · cases hp
  · cases hp
    rw [List.dropLast_concat] at hext ⊢
    have hcur := buildLayouts_cursor_zero segments.enum h64 htext
    rw [← hcur] at hext ⊢
    exact ⟨rfl, Nat.mod_eq_of_lt hext⟩

/-- The segments of image C, as collected. -/
def witC4Text : SegmentInfo :=
  ⟨textName ++ List.replicate 10 0, 0x180000000, 0x4000, 0x1000, 0x4000, 32⟩

def witC4Data : SegmentInfo :=
  ⟨dataName ++ List.replicate 10 0, 0x188000000, 0x3000, 0x8000, 0x3000, 104⟩

def witC4LE : SegmentInfo :=
  ⟨linkeditName ++ List.replicate 6 0, 0x190000000, 0x1000, 0x100000, 0x1000, 176⟩

/-- The layouts planned for image C. -/
def witC4Layouts : List NewSegLayout :=
  [⟨0, 0, 0x4000, 0x180000000, 0x4000⟩, ⟨1, 0x4000, 0x3000, 0x188000000, 0x3000⟩,
   ⟨2, 0x8000, 0x1000, 0x190000000, 0x1000⟩]

/-- Witness for C4's amended theorem at image C's segment list. -/
theorem c4_witness :
    0x8000 = align_to ((witC4Layouts.dropLast.map fun l =>
        l.new_fileoff + l.new_filesize).foldl Nat.max 0) PAGE_SIZE ∧
    wadd64 0x8000 0x1000 =
      align_to ((witC4Layouts.dropLast.map fun l =>
        l.new_fileoff + l.new_filesize).foldl Nat.max 0) PAGE_SIZE + 0x1000 :=
  c4_total_size_amended [witC4Text, witC4Data, witC4LE] witC4LE 0x100000 0x1000
    witC4Layouts 0x8000
    (by set_option maxRecDepth 10000 in decide)
    (by set_option maxRecDepth 10000 in decide)
    (by set_option maxRecDepth 10000 in decide)
    (by set_option maxRecDepth 10000 in decide)

/-! ### C7 — rebased linkedit fields stay inside the extracted slice -/

theorem wadd32_lt (a b : Nat) : wadd32 a b < 2 ^ 32 :=
  Nat.mod_lt _ (by norm_num)

theorem pushBound_eq_append (init : List (Nat × Nat)) (off bs : Nat) :
    pushBound init off bs = init ++ pushBound [] off bs := by
  unfold pushBound
  split
  · rfl
  · simp

theorem foldl_pushBound_eq (ps : List LPair) :
    ∀ init : List (Nat × Nat),
      ps.foldl (fun b p => pushBound b p.off (byteSizeOf p)) init =
        init ++ ps.foldl (fun b p => pushBound b p.off (byteSizeOf p)) [] := by
  induction ps with
  | nil => intro init; simp
  | cons p ps ih =>
    intro init
    simp only [List.foldl_cons]
    rw [ih (pushBound init p.off (byteSizeOf p)), ih (pushBound [] p.off (byteSizeOf p)),
      pushBound_eq_append init, List.append_assoc]

theorem mem_boundsOfPairs {pairs : List LPair} {b : Nat × Nat} :
    b ∈ boundsOfPairs pairs ↔
      ∃ p ∈ pairs, p.off ≠ 0 ∧ byteSizeOf p ≠ 0 ∧
        b = (p.off, wadd32 p.off (byteSizeOf p)) := by
  unfold boundsOfPairs
  induction pairs with
  | nil => simp
  | cons p ps ih =>
    simp only [List.foldl_cons]
    rw [foldl_pushBound_eq ps (pushBound [] p.off (byteSizeOf p)), List.mem_append]
    constructor
    · rintro (hh | ht)
      · unfold pushBound at hh
        split at hh
        · rename_i hcond
          rcases List.mem_singleton.mp hh with rfl
          exact ⟨p, List.mem_cons_self _ _, hcond.1, hcond.2, rfl⟩
        · cases hh
      · obtain ⟨p', hp', h1, h2, h3⟩ := ih.mp ht
        exact ⟨p', List.mem_cons_of_mem _ hp', h1, h2, h3⟩
    · rintro ⟨p', hp', h1, h2, h3⟩
      rcases List.mem_cons.mp hp' with rfl | hp'
      · left
        unfold pushBound
        rw [if_pos ⟨h1, h2⟩]
        simp [h3]
      · right
        exact ih.mpr ⟨p', hp', h1, h2, h3⟩

/-- C7 (counterexample): in image D the `LC_FUNCTION_STARTS` pair has
non-zero offset (`0xFFFFFFF0`) and size (5), yet its rebased offset
(`0x3F8C`) lies below `linkedit_new_fileoff = 0x4000` because the u32
rebase arithmetic wraps. -/
theorem c7_counterexample :
    (((cmdExtract fixDCache fixDPath none).getOk noResult).pairPatches.getD 2
        noPairPatch).off ≠ 0 ∧
    (((cmdExtract fixDCache fixDPath none).getOk noResult).pairPatches.getD 2
        noPairPatch).byteSize ≠ 0 ∧
    (((cmdExtract fixDCache fixDPath none).getOk noResult).pairPatches.getD 2
        noPairPatch).newOff <
      ((cmdExtract fixDCache fixDPath none).getOk noResult).linkeditNewFileoff := by
  set_option maxRecDepth 100000 in decide

/-- C7 (amended): a linkedit pair with non-zero offset and non-zero byte
size is rebased into
`[linkedit_new_fileoff, linkedit_new_fileoff + linkedit_extract_size]`,
provided no recorded bound end overflows 32 bits and
`new_base + linkedit_extract_size` does not overflow either. -/
theorem c7_rebased_fields_in_slice_amended (pairs : List LPair) (fo fs new_base : Nat)
    (q : LPair) (hq : q ∈ pairs) (hoff : q.off ≠ 0) (hsz : byteSizeOf q ≠ 0)
    (hnw : ∀ p ∈ pairs, p.off + byteSizeOf p < 2 ^ 32)
    (hb : new_base + wsub32 (linkeditRange (boundsOfPairs pairs) fo fs).2
        (linkeditRange (boundsOfPairs pairs) fo fs).1 < 2 ^ 32) :
    new_base ≤ patch_linkedit q.off q.sizeField new_base
        (linkeditRange (boundsOfPairs pairs) fo fs).1 ∧
    patch_linkedit q.off q.sizeField new_base
          (linkeditRange (boundsOfPairs pairs) fo fs).1 + byteSizeOf q ≤
      new_base + wsub32 (linkeditRange (boundsOfPairs pairs) fo fs).2
        (linkeditRange (boundsOfPairs pairs) fo fs).1 := by
  have hq32 : q.off + byteSizeOf q < 2 ^ 32 := hnw q hq
  have hqb : (q.off, wadd32 q.off (byteSizeOf q)) ∈ boundsOfPairs pairs :=
    mem_boundsOfPairs.mpr ⟨q, hq, hoff, hsz, rfl⟩
  have hwq : wadd32 q.off (byteSizeOf q) = q.off + byteSizeOf q := wadd32_eq hq32
  obtain ⟨b0, bs0, hcons⟩ : ∃ b0 bs0, boundsOfPairs pairs = b0 :: bs0 := by
    cases hB : boundsOfPairs pairs with
    | nil => rw [hB] at hqb; cases hqb
    | cons b0 bs0 => exact ⟨b0, bs0, rfl⟩
  have hmin : (linkeditRange (boundsOfPairs pairs) fo fs).1 ≤ q.off := by
    rw [hcons] at hqb ⊢
    rcases List.mem_cons.mp hqb with h | h
    · rw [show b0 = (q.off, wadd32 q.off (byteSizeOf q)) from h.symm]
      exact foldl_min_le_init _ _
    · exact foldl_min_le_mem (List.mem_map_of_mem Prod.fst h) _
  have hmax : q.off + byteSizeOf q ≤ (linkeditRange (boundsOfPairs pairs) fo fs).2 := by
    rw [hcons] at hqb ⊢
    rcases List.mem_cons.mp hqb with h | h
    · rw [show b0 = (q.off, wadd32 q.off (byteSizeOf q)) from h.symm]
      simp only [linkeditRange]
      rw [← hwq]
      exact le_foldl_max_init _ _
    · rw [← hwq]
      exact le_foldl_max_mem (List.mem_map_of_mem Prod.snd h) _
  have hmax32 : (linkeditRange (boundsOfPairs pairs) fo fs).2 < 2 ^ 32 := by
    rw [hcons]
    simp only [linkeditRange]
    have hall : ∀ e ∈ boundsOfPairs pairs, e.2 < 2 ^ 32 := by
      intro e he
      obtain ⟨p', -, -, -, he'⟩ := mem_boundsOfPairs.mp he
      rw [he']
      exact wadd32_lt _ _
    rcases foldl_max_mem (bs0.map Prod.snd) b0.2 with h | h
    · rw [h]
      exact hall b0 (hcons ▸ List.mem_cons_self _ _)
    · obtain ⟨bb, hbb, hbb2⟩ := List.mem_map.mp h
      rw [← hbb2]
      exact hall bb (hcons ▸ List.mem_cons_of_mem _ hbb)
  have hminmax : (linkeditRange (boundsOfPairs pairs) fo fs).1 ≤
      (linkeditRange (boundsOfPairs pairs) fo fs).2 :=
    le_trans hmin (le_trans (Nat.le_add_right _ _) hmax)
  have hext : wsub32 (linkeditRange (boundsOfPairs pairs) fo fs).2
      (linkeditRange (boundsOfPairs pairs) fo fs).1 =
      (linkeditRange (boundsOfPairs pairs) fo fs).2 -
        (linkeditRange (boundsOfPairs pairs) fo fs).1 := wsub32_eq hminmax hmax32
  have hsf : q.sizeField ≠ 0 := by
    intro h
    exact hsz (by simp [byteSizeOf, wmul32, h])
  have hpatch : patch_linkedit q.off q.sizeField new_base
      (linkeditRange (boundsOfPairs pairs) fo fs).1 =
      new_base + (q.off - (linkeditRange (boundsOfPairs pairs) fo fs).1) := by
    rw [patch_linkedit, if_pos ⟨hoff, hsf⟩,
      wsub32_eq hmin (lt_of_le_of_lt (Nat.le_add_right _ _) hq32)]
    exact wadd32_eq (by rw [hext] at hb; omega)
  rw [hpatch, hext]
  omega

/-- Witness for C7's amended theorem at image A's symtab pairs. -/
theorem c7_witness :
    0x4000 ≤ patch_linkedit (⟨0x100010, 4, 16⟩ : LPair).off (⟨0x100010, 4, 16⟩ : LPair).sizeField
        0x4000 (linkeditRange
          (boundsOfPairs [⟨0x100010, 4, 16⟩, ⟨0x100050, 0x100, 1⟩]) 0x100000 0x2000).1 ∧
    patch_linkedit (⟨0x100010, 4, 16⟩ : LPair).off (⟨0x100010, 4, 16⟩ : LPair).sizeField 0x4000
          (linkeditRange
            (boundsOfPairs [⟨0x100010, 4, 16⟩, ⟨0x100050, 0x100, 1⟩]) 0x100000 0x2000).1 +
        byteSizeOf ⟨0x100010, 4, 16⟩ ≤
      0x4000 + wsub32 (linkeditRange
          (boundsOfPairs [⟨0x100010, 4, 16⟩, ⟨0x100050, 0x100, 1⟩]) 0x100000 0x2000).2
        (linkeditRange
          (boundsOfPairs [⟨0x100010, 4, 16⟩, ⟨0x100050, 0x100, 1⟩]) 0x100000 0x2000).1 :=
  c7_rebased_fields_in_slice_amended [⟨0x100010, 4, 16⟩, ⟨0x100050, 0x100, 1⟩] 0x100000 0x2000
    0x4000 ⟨0x100010, 4, 16⟩ (by decide) (by decide) (by decide) (by decide) (by decide)

/-! ### C3 — header and load-command parse failures -/

/-- C3 (counterexample): image A's magic is `0x12345678`, not a 64-bit
Mach-O magic, and its final load command's `cmdsize` (1000, at buffer offset
180) overruns the 200-byte header+commands buffer — yet extraction succeeds
end to end. -/
theorem c3_counterexample :
    readU32 fixABytes 0 = 0x12345678 ∧ readU32 fixABytes 0 ≠ MH_MAGIC_64 ∧
    readU32 fixABytes 180 = 1000 ∧ fixABytes.length = 200 ∧
    (cmdExtract fixACache fixAPath none).isOk = true := by
  set_option maxRecDepth 100000 in decide

/-- C3 (amended): header parsing fails exactly when fewer than 32 bytes are
available — the magic is never examined; the command walk returns a parse
error when fewer than 8 bytes remain at a command start inside the buffer,
and panics (it does not return an error) when a `cmdsize` has pushed the
position past the buffer end mid-stream; an overrun by the final command is
not detected at all. -/
theorem c3_parse_failure_amended (bytes buf : ByteStr) (n pos : Nat) (acc : CollectAcc) :
    (parseMachHeader64 bytes = none ↔ bytes.length < 32) ∧
    (pos ≤ buf.length → buf.length - pos < 8 →
      collectWalk buf (n + 1) pos acc = .err .loadCmdParse) ∧
    (buf.length < pos → collectWalk buf (n + 1) pos acc = .panicked) := by
  refine ⟨?_, ?_, ?_⟩
  · unfold parseMachHeader64
    split
    · rename_i h
      constructor
      · intro hc; cases hc
      · intro hc; omega
    · rename_i h
      constructor
      · intro _; omega
      · intro _; rfl
  · intro h1 h2
    rw [collectWalk, if_neg (by omega), if_pos h2]
  · intro h
    rw [collectWalk, if_pos h]

/-- Witness for C3's amended theorem: a 1-byte header fails, a walk position
with 5 remaining bytes errors. -/
theorem c3_witness :
    (parseMachHeader64 [0] = none ↔ ([0] : ByteStr).length < 32) ∧
    (4 ≤ (List.replicate 9 0 : ByteStr).length → (List.replicate 9 0 : ByteStr).length - 4 < 8 →
      collectWalk (List.replicate 9 0) (0 + 1) 4 ⟨[], [], []⟩ = .err .loadCmdParse) ∧
    ((List.replicate 9 0 : ByteStr).length < 4 →
      collectWalk (List.replicate 9 0) (0 + 1) 4 ⟨[], [], []⟩ = .panicked) :=
  c3_parse_failure_amended [0] (List.replicate 9 0) 0 4 ⟨[], [], []⟩

/-! ### C8 — missing `__LINKEDIT` is fatal, and only that is required -/

/-- C8 (counterexample): image B contains two segments named `__LINKEDIT`
(not exactly one) and extraction still succeeds. -/
theorem c8_counterexample :
    (((cmdExtract fixBCache fixBPath none).getOk noResult).segments.filter
        fun s => seg_name s.name == linkeditName).length = 2 ∧
    (cmdExtract fixBCache fixBPath none).isOk = true := by
  set_option maxRecDepth 100000 in decide

/-- C8 (amended): extraction requires at least one segment named
`__LINKEDIT` (the first one found is used); when the walked image has none,
`cmd_extract` returns the fatal `No __LINKEDIT segment found` error and no
file is created. -/
theorem c8_missing_linkedit_fatal_amended (cache : Cache) (dylib : ByteStr)
    (out : Option ByteStr) (image : CacheImage) (header : MachHeader64) (acc : CollectAcc)
    (hfind : cache.images.find? (fun img => img.path == dylib) = some image)
    (hoff : ¬image.data.length < image.offset)
    (hparse : parseMachHeader64 (image.data.drop image.offset) = some header)
    (hlen : ¬(image.data.drop image.offset).length < 32 + header.sizeofcmds)
    (hwalk : collectWalk ((image.data.drop image.offset).take (32 + header.sizeofcmds))
        header.ncmds 32 ⟨[], [], []⟩ = .ok acc)
    (hno : ∀ s ∈ acc.segments, seg_name s.name ≠ linkeditName) :
    cmdExtract cache dylib out = .err .noLinkedit ∧
    extractEffects cache dylib out = [] := by
  have hfindLE : acc.segments.find? (fun s => seg_name s.name == linkeditName) = none :=
    List.find?_eq_none.mpr fun s hs => by simp [hno s hs]
  have hmain : cmdExtract cache dylib out = .err .noLinkedit := by
    simp only [cmdExtract, hfind, if_neg hoff, hparse, if_neg hlen, hwalk, RResult.bind,
      hfindLE]
  exact ⟨hmain, by simp only [extractEffects, hmain]⟩

/-- Witness for C8's amended theorem at image E (no `__LINKEDIT`). -/
theorem c8_witness :
    cmdExtract fixECache fixEPath none = .err .noLinkedit ∧
    extractEffects fixECache fixEPath none = [] :=
  c8_missing_linkedit_fatal_amended fixECache fixEPath none ⟨fixEPath, fixEBytes, 0⟩
    ⟨0xFEEDFACF, 0x0100000C, 0, 6, 1, 72, 0x80000085, 0⟩ ⟨[witSegText], [], []⟩
    (by set_option maxRecDepth 10000 in decide)
    (by set_option maxRecDepth 10000 in decide)
    (by set_option maxRecDepth 10000 in decide)
    (by set_option maxRecDepth 10000 in decide)
    (by set_option maxRecDepth 100000 in decide)
    (by set_option maxRecDepth 10000 in decide)

/-! ### C1 — the extract CLI surface, diagnostic line, and default name -/

/-- C1: the (spec-modelled) CLI dispatch of
`dsc extract <cache-path> <dylib-path> [<output-path>]` calls the core
`cmd_extract`; every successful extraction reports
`Extracted <dylib> -> <output> (<n> bytes)` on stderr with `<n>` the output
size; and with `<output-path>` omitted the output file name is the basename
of `<dylib-path>` (written to the current directory, i.e. used as a relative
path), with `extracted.dylib` as fallback when the path has no basename. -/
theorem c1_extract_cli_diag_and_default_name (cache : Cache) (d : ByteStr)
    (o : Option ByteStr) (cp : ByteStr) (r : ExtractResult)
    (hok : cmdExtract cache d o = .ok r) :
    runExtract (CLICommand.extract cp d o) cache = some (cmdExtract cache d o) ∧
    r.diag = extractedLine d r.outputPath r.totalSize ∧
    r.outputPath = outputPathOf o d ∧
    (o = none → r.outputPath = (fileName d).getD (asciiOf ("extracted.dylib"))) := by
  obtain ⟨h1, h2, -, -, -, -⟩ := cmdExtract_ok_spec hok
  refine ⟨rfl, h2, h1, fun ho => ?_⟩
  rw [h1, ho]
  rfl

/-- Witness for C1 at image A: `/usr/lib/libfix.dylib` with no output path
yields output name `libfix.dylib`. -/
theorem c1_witness :
    runExtract (CLICommand.extract (asciiOf ("cache.bin")) fixAPath none) fixACache =
      some (cmdExtract fixACache fixAPath none) ∧
    ((cmdExtract fixACache fixAPath none).getOk noResult).diag =
      extractedLine fixAPath ((cmdExtract fixACache fixAPath none).getOk noResult).outputPath
        ((cmdExtract fixACache fixAPath none).getOk noResult).totalSize ∧
    ((cmdExtract fixACache fixAPath none).getOk noResult).outputPath =
      outputPathOf none fixAPath ∧
    (none = (none : Option ByteStr) →
      ((cmdExtract fixACache fixAPath none).getOk noResult).outputPath =
        (fileName fixAPath).getD (asciiOf ("extracted.dylib"))) :=
  c1_extract_cli_diag_and_default_name fixACache fixAPath none (asciiOf ("cache.bin"))
    ((cmdExtract fixACache fixAPath none).getOk noResult)
    (by set_option maxRecDepth 100000 in decide)

end Rustdsc
